import Mathlib

/-!
# innand: the command gate of `main.go`

A shallow embedding of `validateArgs` and `executeCommand` together with the
Go standard-library functions they call (`strings.Fields`,
`strings.ContainsAny`, `strings.HasPrefix`, `filepath.Join`, `filepath.Clean`,
`filepath.Ext`, `filepath.Abs`), followed by theorems about them.

Modelling conventions.

* A Go `string` is a Lean `String`, that is, a sequence of Unicode scalar
  values (well-formed UTF-8).  Go's `len(s)` is the number of *bytes* of the
  UTF-8 encoding, which is `String.utf8ByteSize`.
* Paths follow the Unix build of `path/filepath`: the only separator is `/`
  and there is no volume name.
* The operating system is an explicit oracle (`World`): the answer of
  `os.Stat`, of the two `os.Getwd` calls made inside `filepath.Abs`, and of
  running a child process.  `executeCommand` returns, next to its reply, the
  list of operating-system requests it made, in order.
* Every `return` statement of `executeCommand` is a constructor of `Reply`;
  `Reply.text` is the string the Go function returns there.
-/

set_option maxRecDepth 8000

deriving instance DecidableEq for Except

namespace Innand

/-! ## Constants (main.go, lines 23-36) -/

/-- The command directory, `cmdDir = "./cmd"`. -/
def cmdDir : String := "./cmd"

/-- The execution timeout `cmdTimeout = 30 * time.Second`, in whole seconds. -/
def cmdTimeout : Nat := 30

/-- The bound `maxArgLength = 100` on `len(arg)`. -/
def maxArgLength : Nat := 100

/-- The bound `maxArgsCount = 10` on `len(args)`. -/
def maxArgsCount : Nat := 10

/-- The entries of the map literal `allowedExtensions`. -/
def allowedExtensionsEntries : List (String × Bool) :=
  [(".exe", true), (".bat", true), (".sh", true), ("", true)]

/-- The map index expression `allowedExtensions[ext]`: the stored value, or the
zero value `false` when the key is absent. -/
def allowedExtensions (ext : String) : Bool :=
  (allowedExtensionsEntries.lookup ext).getD false

/-! ## Go standard library -/

/-- Go's builtin `len` on a string: the number of bytes. -/
def len (s : String) : Nat := s.utf8ByteSize

/-- The predicate `unicode.IsSpace`: the Latin-1 cases listed in the function's
switch, then the `White_Space` range table. -/
def isSpace (c : Char) : Bool :=
  let n := c.toNat
  if n ≤ 0xFF then
    n = 0x09 || n = 0x0A || n = 0x0B || n = 0x0C || n = 0x0D || n = 0x20
      || n = 0x85 || n = 0xA0
  else
    n = 0x1680 || (0x2000 ≤ n && n ≤ 0x200A) || n = 0x2028 || n = 0x2029
      || n = 0x202F || n = 0x205F || n = 0x3000

/-- The scanning loop of `strings.Fields`: `cur` is the field being read
(empty between fields); a white-space character closes a non-empty field. -/
def fieldsAux : List Char → List Char → List String
  | [], cur => if cur = [] then [] else [String.mk cur]
  | c :: cs, cur =>
    if isSpace c then
      if cur = [] then fieldsAux cs [] else String.mk cur :: fieldsAux cs []
    else fieldsAux cs (cur ++ [c])

/-- The function `strings.Fields`: the maximal runs of non-white-space
characters of `s`, in order. -/
def Fields (s : String) : List String := fieldsAux s.data []

/-- The function `strings.ContainsAny`: some character of `s` is one of the
characters of `chars`. -/
def ContainsAny (s chars : String) : Bool :=
  s.data.any fun c => chars.data.contains c

/-- The function `strings.HasPrefix`. -/
def HasPrefix (s pre : String) : Bool := pre.data.isPrefixOf s.data

/-- Cut a path at every separator `/`; `n` separators give `n + 1` elements,
some of them possibly empty. -/
def splitElems : List Char → List (List Char)
  | [] => [[]]
  | c :: cs =>
    if c = '/' then [] :: splitElems cs
    else
      match splitElems cs with
      | [] => [[c]]
      | e :: es => (c :: e) :: es

/-- One turn of the main loop of `filepath.Clean`, which reads one path element.
`out` is the output buffer as a list of elements and `dotdot` the number of
leading elements that `..` may not remove. -/
def cleanStep (rooted : Bool) (st : List (List Char) × Nat) (e : List Char) :
    List (List Char) × Nat :=
  let out := st.1
  let dotdot := st.2
  if e = [] then (out, dotdot)              -- empty path element
  else if e = ['.'] then (out, dotdot)      -- `.` element
  else if e = ['.', '.'] then               -- `..` element
    if out.length > dotdot then (out.dropLast, dotdot)       -- can backtrack
    else if !rooted then (out ++ [e], out.length + 1)        -- keep the `..`
    else (out, dotdot)
  else (out ++ [e], dotdot)                 -- real path element

/-- The function `filepath.Clean` (Unix). -/
def Clean (path : String) : String :=
  if path = "" then "."
  else
    let rooted := path.data.head? = some '/'
    let out := ((splitElems path.data).foldl (cleanStep rooted) ([], 0)).1
    let body := String.intercalate "/" (out.map String.mk)
    if rooted then "/" ++ body
    else if body = "" then "." else body

/-- The function `filepath.Join` (Unix): the elements from the first non-empty
one on, joined with `/` and cleaned; the empty string when all are empty. -/
def Join (elem : List String) : String :=
  match elem.dropWhile (fun e => e = "") with
  | [] => ""
  | es => Clean (String.intercalate "/" es)

/-- The backward scan of `filepath.Ext` over the reversed path: `acc` holds the
characters already passed. -/
def extAux : List Char → List Char → List Char
  | [], _ => []
  | c :: cs, acc =>
    if c = '/' then []
    else if c = '.' then c :: acc
    else extAux cs (c :: acc)

/-- The function `filepath.Ext`: the suffix starting at the last `.` of the
last path element, or the empty string. -/
def Ext (path : String) : String := String.mk (extAux path.data.reverse [])

/-- The function `filepath.IsAbs` (Unix). -/
def IsAbs (path : String) : Bool := HasPrefix path "/"

/-- The method `Duration.String` for a duration of whole seconds. -/
def durationString (secs : Nat) : String :=
  let h := secs / 3600
  let m := secs % 3600 / 60
  let s := secs % 60
  if h > 0 then toString h ++ "h" ++ toString m ++ "m" ++ toString s ++ "s"
  else if m > 0 then toString m ++ "m" ++ toString s ++ "s"
  else toString s ++ "s"

/-! ## The operating system as an oracle -/

/-- What `os.Stat` answers: no error, an error for which `os.IsNotExist` holds,
or any other error. -/
inductive StatResult where
  | found
  | notExist
  | otherError
  deriving DecidableEq

/-- What `cmd.CombinedOutput()` and the context give back: the captured
output, the error (`none` for `nil`, else its `Error()` text) and whether
`ctx.Err() == context.DeadlineExceeded` afterwards. -/
structure RunResult where
  output : String
  err : Option String
  deadlineExceeded : Bool
  deriving DecidableEq

/-- The environment of one call of `executeCommand`. -/
structure World where
  /-- Answer of `os.Stat(path)`. -/
  stat : String → StatResult
  /-- Answer of `os.Getwd()` inside `filepath.Abs(cmdPath)`. -/
  getwdPath : Except String String
  /-- Answer of `os.Getwd()` inside `filepath.Abs(cmdDir)`. -/
  getwdDir : Except String String
  /-- Result of running the program `name` with arguments `args`. -/
  run : String → List String → RunResult

/-- A request made to the operating system. -/
inductive Event where
  | stat (path : String)
  | getwd
  | spawn (name : String) (args : List String)
  deriving DecidableEq

/-- The function `filepath.Abs` (Unix), given the answer of `os.Getwd`; the
second component tells whether `os.Getwd` was called. -/
def Abs (getwd : Except String String) (path : String) :
    Except String String × List Event :=
  if IsAbs path then (.ok (Clean path), [])
  else
    match getwd with
    | .error e => (.error e, [Event.getwd])
    | .ok wd => (.ok (Join [wd, path]), [Event.getwd])

/-! ## validateArgs (main.go, lines 39-54) -/

/-- The three errors `validateArgs` can return. -/
inductive ArgError where
  | tooManyArguments
  | argumentTooLong (arg : String)
  | illegalCharacter (arg : String)
  deriving DecidableEq

/-- The text of each error, as built by `fmt.Errorf`. -/
def ArgError.message : ArgError → String
  | .tooManyArguments => "参数数量超过限制 (最大 " ++ toString maxArgsCount ++ " 个)"
  | .argumentTooLong arg =>
    "参数长度超过限制 (最大 " ++ toString maxArgLength ++ " 字符): " ++ arg
  | .illegalCharacter arg => "参数包含非法字符: " ++ arg

/-- The loop `for _, arg := range args` of `validateArgs`. -/
def validateLoop : List String → Option ArgError
  | [] => none
  | arg :: rest =>
    if len arg > maxArgLength then some (.argumentTooLong arg)
    else if ContainsAny arg "<>|&;$" then some (.illegalCharacter arg)
    else validateLoop rest

/-- The function `validateArgs`; `none` is the `nil` error. -/
def validateArgs (args : List String) : Option ArgError :=
  if args.length > maxArgsCount then some .tooManyArguments
  else validateLoop args

/-! ## executeCommand (main.go, lines 56-111) -/

/-- The return statements of `executeCommand`. -/
inductive Reply where
  | emptyCommand
  | argsInvalid (err : ArgError)
  | disallowedExtension (ext : String)
  | commandNotFound (name : String)
  | pathResolutionError (err : String)
  | cmdDirResolutionError (err : String)
  | pathEscapesRoot
  | executionTimeout
  | executionError (err : String)
  | output (out : String)
  deriving DecidableEq

/-- The string returned at each return statement. -/
def Reply.text : Reply → String
  | .emptyCommand => "空命令"
  | .argsInvalid err => "参数验证失败: " ++ err.message
  | .disallowedExtension ext => "不支持的文件类型: " ++ ext
  | .commandNotFound name => "命令不存在: " ++ name
  | .pathResolutionError err => "路径解析错误: " ++ err
  | .cmdDirResolutionError err => "命令目录路径解析错误: " ++ err
  | .pathEscapesRoot => "禁止访问cmd目录以外的命令"
  | .executionTimeout => "命令执行超时（超过 " ++ durationString cmdTimeout ++ "）"
  | .executionError err => "执行错误: " ++ err ++ "\n"
  | .output out => out

/-- What one call does: the reply and the operating-system requests made. -/
structure Outcome where
  reply : Reply
  events : List Event
  deriving DecidableEq

/-- Lines 102-110: the reply chosen once the child has been run. -/
def replyOfRun (r : RunResult) : Reply :=
  if r.deadlineExceeded then .executionTimeout
  else
    match r.err with
    | some e => .executionError e
    | none => .output r.output

/-- The function `executeCommand`. -/
def executeCommand (w : World) (command : String) : Outcome :=
  match Fields command with
  | [] => ⟨.emptyCommand, []⟩
  | prog :: args =>
    match validateArgs args with
    | some err => ⟨.argsInvalid err, []⟩
    | none =>
      let cmdPath := Join [cmdDir, prog]
      let ext := Ext cmdPath
      if !allowedExtensions ext then ⟨.disallowedExtension ext, []⟩
      else
        if w.stat cmdPath = .notExist then
          ⟨.commandNotFound prog, [.stat cmdPath]⟩
        else
          match Abs w.getwdPath cmdPath with
          | (.error e, ev₁) => ⟨.pathResolutionError e, .stat cmdPath :: ev₁⟩
          | (.ok absPath, ev₁) =>
            match Abs w.getwdDir cmdDir with
            | (.error e, ev₂) =>
              ⟨.cmdDirResolutionError e, .stat cmdPath :: (ev₁ ++ ev₂)⟩
            | (.ok absCmdDir, ev₂) =>
              if !HasPrefix absPath absCmdDir then
                ⟨.pathEscapesRoot, .stat cmdPath :: (ev₁ ++ ev₂)⟩
              else
                ⟨replyOfRun (w.run cmdPath args),
                  .stat cmdPath :: (ev₁ ++ ev₂) ++ [.spawn cmdPath args]⟩

/-! ## Sample environments -/

/-- A world whose working directory is `/srv`, where exactly the paths in
`files` exist and every child process gives `r`. -/
def sampleWorld (files : List String) (r : RunResult) : World where
  stat p := if p ∈ files then .found else .notExist
  getwdPath := .ok "/srv"
  getwdDir := .ok "/srv"
  run _ _ := r

/-! ## Auxiliary definitions used in the statements -/

/-- The non-empty elements of a path, in order. -/
def pathSegments (p : String) : List (List Char) :=
  (splitElems p.data).filter fun e => e ≠ []

/-- Containment by path segments: `path` is `root` or lies below it. -/
def isWithin (root path : String) : Bool :=
  (pathSegments root).isPrefixOf (pathSegments path)

/-- A token of 34 characters that takes 102 bytes. -/
def wideToken : String := String.mk (List.replicate 34 '中')

/-- A token of 101 one-byte characters. -/
def longToken : String := String.mk (List.replicate 101 'a')

/-- A token of 101 bytes that also contains `;`. -/
def longBadToken : String := String.mk (';' :: List.replicate 100 'a')

/-- Elements kept in the output buffer of `Clean` are non-empty and do not
start with a separator. -/
def GoodElems (out : List (List Char)) : Prop :=
  ∀ e ∈ out, e ≠ [] ∧ e.head? ≠ some '/'

/-! ## Run-time panics (index and slice expressions) -/

/-- The run-time panics an index or slice expression on `parts` can raise. -/
inductive Panic where
  | indexOutOfRange
  | sliceBoundsOutOfRange
  deriving DecidableEq

/-- The index expression `parts[i]`: it panics when `i` is not below
`len(parts)`. -/
def indexAt (parts : List String) (i : Nat) : Except Panic String :=
  match parts[i]? with
  | some p => .ok p
  | none => .error .indexOutOfRange

/-- The slice expression `parts[lo:]`: it panics when `lo` exceeds
`len(parts)`. -/
def sliceFrom (parts : List String) (lo : Nat) : Except Panic (List String) :=
  if lo ≤ parts.length then .ok (parts.drop lo) else .error .sliceBoundsOutOfRange

/-- The function `executeCommand` with every index and slice expression of the
source (`parts[1:]` on lines 63 and 99, `parts[0]` on lines 68 and 78)
evaluated as Go does, a panic ending the call. -/
def executeCommandChecked (w : World) (command : String) : Except Panic Outcome :=
  let parts := Fields command
  if parts.length = 0 then .ok ⟨.emptyCommand, []⟩
  else
    match sliceFrom parts 1 with
    | .error p => .error p
    | .ok args =>
      match validateArgs args with
      | some err => .ok ⟨.argsInvalid err, []⟩
      | none =>
        match indexAt parts 0 with
        | .error p => .error p
        | .ok prog =>
          let cmdPath := Join [cmdDir, prog]
          let ext := Ext cmdPath
          if !allowedExtensions ext then .ok ⟨.disallowedExtension ext, []⟩
          else
            if w.stat cmdPath = .notExist then
              match indexAt parts 0 with
              | .error p => .error p
              | .ok name => .ok ⟨.commandNotFound name, [.stat cmdPath]⟩
            else
              match Abs w.getwdPath cmdPath with
              | (.error e, ev₁) => .ok ⟨.pathResolutionError e, .stat cmdPath :: ev₁⟩
              | (.ok absPath, ev₁) =>
                match Abs w.getwdDir cmdDir with
                | (.error e, ev₂) =>
                  .ok ⟨.cmdDirResolutionError e, .stat cmdPath :: (ev₁ ++ ev₂)⟩
                | (.ok absCmdDir, ev₂) =>
                  if !HasPrefix absPath absCmdDir then
                    .ok ⟨.pathEscapesRoot, .stat cmdPath :: (ev₁ ++ ev₂)⟩
                  else
                    match sliceFrom parts 1 with
                    | .error p => .error p
                    | .ok spawnArgs =>
                      .ok ⟨replyOfRun (w.run cmdPath spawnArgs),
                        .stat cmdPath :: (ev₁ ++ ev₂) ++ [.spawn cmdPath spawnArgs]⟩

/-- A token of 100 one-byte characters. -/
def fullToken : String := String.mk (List.replicate 100 'a')

/-- A program name of 101 bytes that contains `;`. -/
def oddProgram : String := longBadToken

/-- A command of the program name `oddProgram` followed by ten arguments equal
to `fullToken`. -/
def fullCommand : String :=
  String.intercalate " " (oddProgram :: List.replicate 10 fullToken)

/-- A token of 100 characters of three bytes each. -/
def wideFullToken : String := String.mk (List.replicate 100 '中')

/-- A command of the program name `run.sh` followed by ten arguments equal to
`wideFullToken`. -/
def wideCommand : String :=
  String.intercalate " " ("run.sh" :: List.replicate 10 wideFullToken)

/-- A world with working directory `/srv` in which `cmd/a.sh` is a regular
file. Nothing exists at `cmd/a.sh/b.sh`, and `os.Stat` of that path fails with
ENOTDIR, an error for which `os.IsNotExist` is false; running that path fails
with the same error. -/
def notDirWorld : World where
  stat p :=
    if p = "cmd/a.sh" then .found
    else if p = "cmd/a.sh/b.sh" then .otherError
    else .notExist
  getwdPath := .ok "/srv"
  getwdDir := .ok "/srv"
  run _ _ := ⟨"", some "fork/exec cmd/a.sh/b.sh: not a directory", false⟩

/-! ## Lemmas about the library functions and the gate -/

theorem intercalate_go_data (s : String) (as : List String) (acc : String) :
    ∃ t, (String.intercalate.go acc s as).data = acc.data ++ t := by
  induction as generalizing acc with
  | nil => exact ⟨[], by simp [String.intercalate.go]⟩
  | cons a as ih =>
    obtain ⟨t, ht⟩ := ih (acc ++ s ++ a)
    exact ⟨s.data ++ a.data ++ t, by simp [String.intercalate.go, ht, List.append_assoc]⟩

theorem splitElems_no_sep (l : List Char) : ∀ e ∈ splitElems l, '/' ∉ e := by
  induction l with
  | nil => simp [splitElems]
  | cons c cs ih =>
    unfold splitElems
    split
    · intro e he
      rcases List.mem_cons.1 he with h | h
      · simp [h]
      · exact ih e h
    · rename_i hc
      split
      · simp [Ne.symm hc]
      · rename_i e es heq
        intro x hx
        rw [heq] at ih
        rcases List.mem_cons.1 hx with h | h
        · subst h
          have := ih e (List.mem_cons_self _ _)
          simp [Ne.symm hc, this]
        · exact ih x (List.mem_cons_of_mem _ h)

theorem cleanStep_good (rooted : Bool) (st : List (List Char) × Nat) (e : List Char)
    (hst : GoodElems st.1) (he : '/' ∉ e) : GoodElems (cleanStep rooted st e).1 := by
  have hhead : e.head? ≠ some '/' := by
    cases e with
    | nil => simp
    | cons a t => simp at he ⊢; exact fun h => he.1 h.symm
  unfold cleanStep
  simp only
  split
  · exact hst
  · split
    · exact hst
    · rename_i hne _
      have hadd : GoodElems (st.1 ++ [e]) := by
        intro x hx
        rcases List.mem_append.1 hx with h | h
        · exact hst x h
        · simp at h; subst h; exact ⟨hne, hhead⟩
      split
      · split
        · intro x hx
          exact hst x (List.dropLast_subset _ hx)
        · split
          · exact hadd
          · exact hst
      · exact hadd

theorem foldl_cleanStep_good (rooted : Bool) (es : List (List Char))
    (st : List (List Char) × Nat) (hst : GoodElems st.1) (hes : ∀ e ∈ es, '/' ∉ e) :
    GoodElems (es.foldl (cleanStep rooted) st).1 := by
  induction es generalizing st with
  | nil => simpa using hst
  | cons e es ih =>
    simp only [List.foldl_cons]
    exact ih _ (cleanStep_good rooted st e hst (hes e (List.mem_cons_self _ _)))
      (fun x hx => hes x (List.mem_cons_of_mem _ hx))

/-- Cleaning a path that does not start with `/` gives a path that does not
start with `/`. -/
theorem Clean_not_abs (path : String) (h : path.data.head? ≠ some '/') :
    IsAbs (Clean path) = false := by
  unfold Clean
  split
  · decide
  · simp only [h, decide_False, Bool.false_eq_true, if_false]
    split
    · decide
    · rename_i hbody
      have hgood := foldl_cleanStep_good false (splitElems path.data) ([], 0)
        (by intro e he; simp at he) (splitElems_no_sep path.data)
      generalize ((splitElems path.data).foldl (cleanStep false) ([], 0)).1 = out at hgood hbody
      cases out with
      | nil => simp [String.intercalate] at hbody
      | cons e es =>
        obtain ⟨t, ht⟩ := intercalate_go_data "/" (es.map String.mk) (String.mk e)
        have he := hgood e (List.mem_cons_self _ _)
        simp only [IsAbs, HasPrefix, List.map_cons, String.intercalate, ht]
        cases e with
        | nil => exact absurd rfl he.1
        | cons c cs =>
          have : c ≠ '/' := by simpa using he.2
          simp [List.isPrefixOf, Ne.symm this]

theorem Join_cmdDir_eq (prog : String) :
    Join [cmdDir, prog] = Clean (cmdDir ++ "/" ++ prog) := by
  simp [Join, cmdDir, String.intercalate, String.intercalate.go, List.dropWhile]

theorem Join_cmdDir_not_abs (prog : String) : IsAbs (Join [cmdDir, prog]) = false := by
  rw [Join_cmdDir_eq]
  apply Clean_not_abs
  simp [cmdDir]


theorem Abs_cmdPath (g : Except String String) (prog : String) :
    Abs g (Join [cmdDir, prog]) =
      match g with
      | .error e => (.error e, [Event.getwd])
      | .ok wd => (.ok (Join [wd, Join [cmdDir, prog]]), [Event.getwd]) := by
  simp [Abs, Join_cmdDir_not_abs]

theorem Abs_cmdDir (g : Except String String) :
    Abs g cmdDir =
      match g with
      | .error e => (.error e, [Event.getwd])
      | .ok wd => (.ok (Join [wd, cmdDir]), [Event.getwd]) := by
  have h : IsAbs cmdDir = false := by decide
  simp [Abs, h]

/-- The outcome of a call in which every check of lines 57-92 succeeds. -/
theorem executeCommand_of_checks (w : World) (command prog : String) (args : List String)
    (wd₁ wd₂ : String)
    (hf : Fields command = prog :: args)
    (hv : validateArgs args = none)
    (he : allowedExtensions (Ext (Join [cmdDir, prog])) = true)
    (hs : w.stat (Join [cmdDir, prog]) ≠ .notExist)
    (h₁ : w.getwdPath = .ok wd₁)
    (h₂ : w.getwdDir = .ok wd₂)
    (hp : HasPrefix (Join [wd₁, Join [cmdDir, prog]]) (Join [wd₂, cmdDir]) = true) :
    executeCommand w command =
      ⟨replyOfRun (w.run (Join [cmdDir, prog]) args),
        [.stat (Join [cmdDir, prog]), .getwd, .getwd, .spawn (Join [cmdDir, prog]) args]⟩ := by
  simp [executeCommand, hf, hv, he, hs, Abs_cmdPath, Abs_cmdDir, h₁, h₂, hp]

/-- A spawn request in the trace pins down the whole run: the tokens, every
check that was passed, and the full outcome. -/
theorem spawn_mem_events (w : World) (command name : String) (args : List String)
    (h : Event.spawn name args ∈ (executeCommand w command).events) :
    ∃ prog wd₁ wd₂, Fields command = prog :: args ∧ name = Join [cmdDir, prog] ∧
      validateArgs args = none ∧ allowedExtensions (Ext name) = true ∧
      w.stat name ≠ .notExist ∧ w.getwdPath = .ok wd₁ ∧ w.getwdDir = .ok wd₂ ∧
      HasPrefix (Join [wd₁, name]) (Join [wd₂, cmdDir]) = true ∧
      executeCommand w command =
        ⟨replyOfRun (w.run name args), [.stat name, .getwd, .getwd, .spawn name args]⟩ := by
  cases hF : Fields command with
  | nil => simp [executeCommand, hF] at h
  | cons prog as =>
    cases hV : validateArgs as with
    | some err => simp [executeCommand, hF, hV] at h
    | none =>
      cases hE : allowedExtensions (Ext (Join [cmdDir, prog])) with
      | false => simp [executeCommand, hF, hV, hE] at h
      | true =>
        by_cases hS : w.stat (Join [cmdDir, prog]) = .notExist
        · simp [executeCommand, hF, hV, hE, hS] at h
        · cases h₁ : w.getwdPath with
          | error e => simp [executeCommand, hF, hV, hE, hS, Abs_cmdPath, h₁] at h
          | ok wd₁ =>
            cases h₂ : w.getwdDir with
            | error e =>
              simp [executeCommand, hF, hV, hE, hS, Abs_cmdPath, Abs_cmdDir, h₁, h₂] at h
            | ok wd₂ =>
              cases hP : HasPrefix (Join [wd₁, Join [cmdDir, prog]]) (Join [wd₂, cmdDir]) with
              | false =>
                simp [executeCommand, hF, hV, hE, hS, Abs_cmdPath, Abs_cmdDir, h₁, h₂, hP] at h
              | true =>
                have hrun := executeCommand_of_checks w command prog as wd₁ wd₂ hF hV hE hS h₁ h₂ hP
                rw [hrun] at h
                simp at h
                obtain ⟨rfl, rfl⟩ := h
                exact ⟨prog, wd₁, wd₂, rfl, rfl, hV, hE, hS, rfl, rfl, hP, hrun⟩



theorem allowedExtensions_iff (ext : String) :
    allowedExtensions ext = true ↔ ext ∈ [".exe", ".bat", ".sh", ""] := by
  simp only [allowedExtensions, allowedExtensionsEntries, List.lookup]
  by_cases h1 : ext = ".exe"
  · subst h1; decide
  by_cases h2 : ext = ".bat"
  · subst h2; decide
  by_cases h3 : ext = ".sh"
  · subst h3; decide
  by_cases h4 : ext = ""
  · subst h4; decide
  have e1 : (ext == ".exe") = false := by simpa using h1
  have e2 : (ext == ".bat") = false := by simpa using h2
  have e3 : (ext == ".sh") = false := by simpa using h3
  have e4 : (ext == "") = false := by simpa using h4
  simp [e1, e2, e3, e4, h1, h2, h3, h4]

theorem fieldsAux_all_space (l : List Char) (h : ∀ c ∈ l, isSpace c = true) :
    fieldsAux l [] = [] := by
  induction l with
  | nil => simp [fieldsAux]
  | cons c cs ih =>
    have hc := h c (List.mem_cons_self _ _)
    simp [fieldsAux, hc, ih (fun x hx => h x (List.mem_cons_of_mem _ hx))]

theorem validateLoop_skip (pre rest : List String)
    (h : ∀ b ∈ pre, len b ≤ maxArgLength ∧ ContainsAny b "<>|&;$" = false) :
    validateLoop (pre ++ rest) = validateLoop rest := by
  induction pre with
  | nil => rfl
  | cons b bs ih =>
    have hb := h b (List.mem_cons_self _ _)
    have hlen : ¬ len b > maxArgLength := Nat.not_lt.2 hb.1
    simp [validateLoop, hlen, hb.2, ih (fun x hx => h x (List.mem_cons_of_mem _ hx))]

/-- The loop returns an error exactly for the first token that breaks a rule,
and for that token the length rule is tested first. -/
theorem validateLoop_eq_some_iff (args : List String) (e : ArgError) :
    validateLoop args = some e ↔
      ∃ pre a post, args = pre ++ a :: post ∧
        (∀ b ∈ pre, len b ≤ maxArgLength ∧ ContainsAny b "<>|&;$" = false) ∧
        ((len a > maxArgLength ∧ e = .argumentTooLong a) ∨
          (len a ≤ maxArgLength ∧ ContainsAny a "<>|&;$" = true ∧ e = .illegalCharacter a)) := by
  induction args with
  | nil => simp [validateLoop]
  | cons x xs ih =>
    by_cases hlen : len x > maxArgLength
    · simp only [validateLoop, hlen, if_true]
      constructor
      · intro h
        exact ⟨[], x, xs, rfl, by simp, Or.inl ⟨hlen, (Option.some.inj h).symm⟩⟩
      · rintro ⟨pre, a, post, hsplit, hpre, hcase⟩
        cases pre with
        | nil =>
          simp at hsplit
          obtain ⟨rfl, rfl⟩ := hsplit
          rcases hcase with ⟨_, rfl⟩ | ⟨hle, _, _⟩
          · rfl
          · exact absurd hlen (Nat.not_lt.2 hle)
        | cons b bs =>
          simp at hsplit
          obtain ⟨rfl, rfl⟩ := hsplit
          exact absurd hlen (Nat.not_lt.2 (hpre x (List.mem_cons_self _ _)).1)
    · by_cases hbad : ContainsAny x "<>|&;$" = true
      · simp only [validateLoop, hlen, hbad, if_true, if_false]
        constructor
        · intro h
          exact ⟨[], x, xs, rfl, by simp,
            Or.inr ⟨Nat.not_lt.1 hlen, hbad, (Option.some.inj h).symm⟩⟩
        · rintro ⟨pre, a, post, hsplit, hpre, hcase⟩
          cases pre with
          | nil =>
            simp at hsplit
            obtain ⟨rfl, rfl⟩ := hsplit
            rcases hcase with ⟨hgt, _⟩ | ⟨_, _, rfl⟩
            · exact absurd hgt hlen
            · rfl
          | cons b bs =>
            simp at hsplit
            obtain ⟨rfl, rfl⟩ := hsplit
            have := (hpre x (List.mem_cons_self _ _)).2
            rw [hbad] at this
            exact absurd this (by decide)
      · have hok : ContainsAny x "<>|&;$" = false := by simpa using hbad
        simp only [validateLoop, hlen, hok, if_false, Bool.false_eq_true]
        rw [ih]
        constructor
        · rintro ⟨pre, a, post, hsplit, hpre, hcase⟩
          refine ⟨x :: pre, a, post, by simp [hsplit], ?_, hcase⟩
          intro b hb
          rcases List.mem_cons.1 hb with rfl | hb
          · exact ⟨Nat.not_lt.1 hlen, hok⟩
          · exact hpre b hb
        · rintro ⟨pre, a, post, hsplit, hpre, hcase⟩
          cases pre with
          | nil =>
            simp at hsplit
            obtain ⟨rfl, rfl⟩ := hsplit
            rcases hcase with ⟨hgt, _⟩ | ⟨_, hb, _⟩
            · exact absurd hgt hlen
            · exact absurd hb hbad
          | cons b bs =>
            simp at hsplit
            obtain ⟨rfl, rfl⟩ := hsplit
            exact ⟨bs, a, post, rfl, fun c hc => hpre c (List.mem_cons_of_mem _ hc), hcase⟩


/-! ## Properties of the gate -/

/-- C1: the containment test of line 90 is a string-prefix test, so a program
name that leaves `./cmd` for a sibling whose name starts with `cmd` is run.
With working directory `/srv` and an existing file `/srv/cmd-evil.sh`, the
command `../cmd-evil.sh` has the absolute path `/srv/cmd-evil.sh`, which is not
within `/srv/cmd` by path segments; its arguments are valid and its extension
allowed; yet `executeCommand` spawns it and returns its output. -/
theorem sibling_of_root_is_spawned :
    (Abs (sampleWorld ["cmd-evil.sh"] ⟨"pwned\n", none, false⟩).getwdPath
        (Join [cmdDir, "../cmd-evil.sh"])).1 = .ok "/srv/cmd-evil.sh" ∧
    (Abs (sampleWorld ["cmd-evil.sh"] ⟨"pwned\n", none, false⟩).getwdDir cmdDir).1
        = .ok "/srv/cmd" ∧
    isWithin "/srv/cmd" "/srv/cmd-evil.sh" = false ∧
    Fields "../cmd-evil.sh" = ["../cmd-evil.sh"] ∧
    validateArgs [] = none ∧
    allowedExtensions (Ext (Join [cmdDir, "../cmd-evil.sh"])) = true ∧
    executeCommand (sampleWorld ["cmd-evil.sh"] ⟨"pwned\n", none, false⟩) "../cmd-evil.sh"
      = ⟨.output "pwned\n",
          [.stat "cmd-evil.sh", .getwd, .getwd, .spawn "cmd-evil.sh" []]⟩ := by
  decide

/-- C2, as stated, fails: an argument containing `;` does not give the
IllegalCharacter reply when there are more than 10 arguments (the reply is
TooManyArguments) or when that argument is longer than 100 bytes (the reply
is ArgumentTooLong). -/
theorem illegal_character_not_always_reported :
    (ContainsAny ";" "<>|&;$" = true ∧
      (executeCommand (sampleWorld ["cmd/ls"] ⟨"", none, false⟩)
          "ls ; 2 3 4 5 6 7 8 9 10 11").reply = .argsInvalid .tooManyArguments) ∧
    (ContainsAny longBadToken "<>|&;$" = true ∧
      (executeCommand (sampleWorld ["cmd/ls"] ⟨"", none, false⟩)
          ("ls " ++ longBadToken)).reply = .argsInvalid (.argumentTooLong longBadToken)) := by
  decide

/-- C2, amended: when there are at most 10 argument tokens and the first
argument token that breaks a rule is a token `a` of at most 100 bytes that
contains one of `< > | & ; $`, the reply is the IllegalCharacter reply for
`a`, whatever the program name and the environment, and nothing is asked of
the operating system. -/
theorem illegal_character_reply (w : World) (command prog : String)
    (pre : List String) (a : String) (post : List String)
    (hf : Fields command = prog :: (pre ++ a :: post))
    (hcount : (pre ++ a :: post).length ≤ maxArgsCount)
    (hpre : ∀ b ∈ pre, len b ≤ maxArgLength ∧ ContainsAny b "<>|&;$" = false)
    (hlen : len a ≤ maxArgLength)
    (hbad : ContainsAny a "<>|&;$" = true) :
    executeCommand w command = ⟨.argsInvalid (.illegalCharacter a), []⟩ ∧
    (executeCommand w command).reply.text = "参数验证失败: 参数包含非法字符: " ++ a := by
  have hv : validateArgs (pre ++ a :: post) = some (.illegalCharacter a) := by
    have hc : ¬ (pre ++ a :: post).length > maxArgsCount := Nat.not_lt.2 hcount
    simp only [validateArgs, hc, if_false]
    exact (validateLoop_eq_some_iff _ _).2
      ⟨pre, a, post, rfl, hpre, Or.inr ⟨hlen, hbad, rfl⟩⟩
  have hrun : executeCommand w command = ⟨.argsInvalid (.illegalCharacter a), []⟩ := by
    simp [executeCommand, hf, hv]
  refine ⟨hrun, ?_⟩
  rw [hrun]
  simp only [Reply.text, ArgError.message]
  rw [← String.append_assoc]
  rfl

theorem illegal_character_reply_witness :
    Fields "backup.sh -v a;b last" = "backup.sh" :: (["-v"] ++ "a;b" :: ["last"]) ∧
    (executeCommand (sampleWorld ["cmd/backup.sh"] ⟨"done\n", none, false⟩)
        "backup.sh -v a;b last" = ⟨.argsInvalid (.illegalCharacter "a;b"), []⟩ ∧
      (executeCommand (sampleWorld ["cmd/backup.sh"] ⟨"done\n", none, false⟩)
        "backup.sh -v a;b last").reply.text = "参数验证失败: 参数包含非法字符: " ++ "a;b") :=
  ⟨by decide,
    illegal_character_reply _ "backup.sh -v a;b last" "backup.sh" ["-v"] "a;b" ["last"]
      (by decide) (by decide) (by decide) (by decide) (by decide)⟩

/-- C3: a command with more than `maxArgsCount` (10) tokens after the program
name gets the TooManyArguments reply, whatever the tokens are, and no request
(stat, getwd, spawn) is made to the operating system. -/
theorem too_many_arguments_reply (w : World) (command : String)
    (h : (Fields command).tail.length > maxArgsCount) :
    executeCommand w command = ⟨.argsInvalid .tooManyArguments, []⟩ ∧
    (executeCommand w command).reply.text = "参数验证失败: 参数数量超过限制 (最大 10 个)" := by
  have hrun : executeCommand w command = ⟨.argsInvalid .tooManyArguments, []⟩ := by
    cases hF : Fields command with
    | nil => simp [hF, maxArgsCount] at h
    | cons prog args =>
      rw [hF] at h
      have hv : validateArgs args = some .tooManyArguments := by
        simp only [List.tail_cons] at h
        simp [validateArgs, h]
      simp [executeCommand, hF, hv]
  refine ⟨hrun, ?_⟩
  rw [hrun]
  decide

theorem too_many_arguments_reply_witness :
    (Fields "ls 1 2 3 4 5 6 7 8 9 10 11").tail.length > maxArgsCount ∧
    (executeCommand (sampleWorld ["cmd/ls"] ⟨"", none, false⟩) "ls 1 2 3 4 5 6 7 8 9 10 11"
        = ⟨.argsInvalid .tooManyArguments, []⟩ ∧
      (executeCommand (sampleWorld ["cmd/ls"] ⟨"", none, false⟩)
        "ls 1 2 3 4 5 6 7 8 9 10 11").reply.text
        = "参数验证失败: 参数数量超过限制 (最大 10 个)") :=
  ⟨by decide, too_many_arguments_reply _ _ (by decide)⟩

/-- C4: a command text made only of white-space characters (the empty text
included) gets exactly the reply "空命令", with no request to the operating
system. -/
theorem empty_command_reply (w : World) (command : String)
    (h : ∀ c ∈ command.data, isSpace c = true) :
    executeCommand w command = ⟨.emptyCommand, []⟩ ∧
    (executeCommand w command).reply.text = "空命令" := by
  have hF : Fields command = [] := fieldsAux_all_space _ h
  have hrun : executeCommand w command = ⟨.emptyCommand, []⟩ := by
    simp [executeCommand, hF]
  exact ⟨hrun, by rw [hrun]; rfl⟩

theorem empty_command_reply_witness :
    (∀ c ∈ " \t\n 　 ".data, isSpace c = true) ∧
    (executeCommand (sampleWorld [] ⟨"", none, false⟩) " \t\n 　 "
        = ⟨.emptyCommand, []⟩ ∧
      (executeCommand (sampleWorld [] ⟨"", none, false⟩) " \t\n 　 ").reply.text
        = "空命令") :=
  ⟨by decide, empty_command_reply _ _ (by decide)⟩

/-- C5: for a command whose arguments pass validation, an extension of the
candidate path outside `.exe`, `.bat`, `.sh` and the empty extension gives the
DisallowedExtension reply naming that extension, whatever `os.Stat` would say
and wherever the path points, with no request to the operating system; and a
command whose candidate path has an allowed extension never gets the
DisallowedExtension reply. -/
theorem extension_gate (w : World) (command prog : String) (args : List String)
    (hf : Fields command = prog :: args) :
    (validateArgs args = none →
      Ext (Join [cmdDir, prog]) ∉ [".exe", ".bat", ".sh", ""] →
      executeCommand w command = ⟨.disallowedExtension (Ext (Join [cmdDir, prog])), []⟩ ∧
      (executeCommand w command).reply.text
        = "不支持的文件类型: " ++ Ext (Join [cmdDir, prog])) ∧
    (Ext (Join [cmdDir, prog]) ∈ [".exe", ".bat", ".sh", ""] →
      ∀ ext, (executeCommand w command).reply ≠ .disallowedExtension ext) := by
  constructor
  · intro hv hext
    have he : allowedExtensions (Ext (Join [cmdDir, prog])) = false := by
      cases hE : allowedExtensions (Ext (Join [cmdDir, prog])) with
      | false => rfl
      | true => exact absurd ((allowedExtensions_iff _).1 hE) hext
    have hrun : executeCommand w command
        = ⟨.disallowedExtension (Ext (Join [cmdDir, prog])), []⟩ := by
      simp [executeCommand, hf, hv, he]
    exact ⟨hrun, by rw [hrun]; rfl⟩
  · intro hext ext
    have he := (allowedExtensions_iff _).2 hext
    cases hV : validateArgs args with
    | some err => simp [executeCommand, hf, hV]
    | none =>
      by_cases hS : w.stat (Join [cmdDir, prog]) = .notExist
      · simp [executeCommand, hf, hV, he, hS]
      · cases h₁ : w.getwdPath with
        | error e => simp [executeCommand, hf, hV, he, hS, Abs_cmdPath, h₁]
        | ok wd₁ =>
          cases h₂ : w.getwdDir with
          | error e => simp [executeCommand, hf, hV, he, hS, Abs_cmdPath, Abs_cmdDir, h₁, h₂]
          | ok wd₂ =>
            cases hP : HasPrefix (Join [wd₁, Join [cmdDir, prog]]) (Join [wd₂, cmdDir]) with
            | false =>
              simp [executeCommand, hf, hV, he, hS, Abs_cmdPath, Abs_cmdDir, h₁, h₂, hP]
            | true =>
              rw [executeCommand_of_checks w command prog args wd₁ wd₂ hf hV he hS h₁ h₂ hP]
              simp only [replyOfRun]
              split
              · simp
              · split <;> simp

theorem extension_gate_witness :
    (Fields "tool.py -x" = "tool.py" :: ["-x"] ∧
      validateArgs ["-x"] = none ∧
      Ext (Join [cmdDir, "tool.py"]) ∉ [".exe", ".bat", ".sh", ""] ∧
      executeCommand (sampleWorld ["cmd/tool.py"] ⟨"ok\n", none, false⟩) "tool.py -x"
        = ⟨.disallowedExtension ".py", []⟩ ∧
      (executeCommand (sampleWorld ["cmd/tool.py"] ⟨"ok\n", none, false⟩)
        "tool.py -x").reply.text = "不支持的文件类型: .py") ∧
    (Fields "tool.sh -x" = "tool.sh" :: ["-x"] ∧
      Ext (Join [cmdDir, "tool.sh"]) ∈ [".exe", ".bat", ".sh", ""] ∧
      (executeCommand (sampleWorld ["cmd/tool.py"] ⟨"ok\n", none, false⟩)
        "tool.sh -x").reply ≠ .disallowedExtension ".sh") :=
  ⟨⟨by decide, by decide, by decide,
      (extension_gate (sampleWorld ["cmd/tool.py"] ⟨"ok\n", none, false⟩) "tool.py -x"
        "tool.py" ["-x"] (by decide)).1 (by decide) (by decide)⟩,
    ⟨by decide, by decide,
      (extension_gate (sampleWorld ["cmd/tool.py"] ⟨"ok\n", none, false⟩) "tool.sh -x"
        "tool.sh" ["-x"] (by decide)).2 (by decide) ".sh"⟩⟩

/-- C6, as stated, fails: `fail.sh` passes every check, its child writes
"partial output\n" and ends with the error "exit status 1" before the
deadline; the reply is "执行错误: exit status 1\n", in which the output the
child produced does not occur. -/
theorem execution_error_drops_output :
    Event.spawn "cmd/fail.sh" [] ∈
      (executeCommand
        (sampleWorld ["cmd/fail.sh"] ⟨"partial output\n", some "exit status 1", false⟩)
        "fail.sh").events ∧
    (executeCommand
        (sampleWorld ["cmd/fail.sh"] ⟨"partial output\n", some "exit status 1", false⟩)
        "fail.sh").reply.text = "执行错误: exit status 1\n" ∧
    ¬ ("partial output\n".data <:+:
        (executeCommand
          (sampleWorld ["cmd/fail.sh"] ⟨"partial output\n", some "exit status 1", false⟩)
          "fail.sh").reply.text.data) := by
  decide

/-- C6, amended: for a command that reaches the spawn step and whose child
ends with an error `err` without the deadline being exceeded, the reply is the
ExecutionError reply, its text is exactly "执行错误: " followed by `err` and a
newline, so it contains the error description; it is the same whatever output
the child produced. -/
theorem execution_error_reply (w : World) (command name : String) (args : List String)
    (err : String)
    (hspawn : Event.spawn name args ∈ (executeCommand w command).events)
    (hdl : (w.run name args).deadlineExceeded = false)
    (herr : (w.run name args).err = some err) :
    (executeCommand w command).reply = .executionError err ∧
    (executeCommand w command).reply.text = "执行错误: " ++ err ++ "\n" ∧
    err.data <:+: (executeCommand w command).reply.text.data := by
  obtain ⟨_, _, _, _, _, _, _, _, _, _, _, hrun⟩ := spawn_mem_events w command name args hspawn
  have hreply : (executeCommand w command).reply = .executionError err := by
    rw [hrun]
    simp [replyOfRun, hdl, herr]
  refine ⟨hreply, by rw [hreply]; rfl, ?_⟩
  rw [hreply]
  exact ⟨"执行错误: ".data, "\n".data, by simp [Reply.text]⟩

theorem execution_error_reply_witness :
    Event.spawn "cmd/fail.sh" ["now"] ∈
      (executeCommand
        (sampleWorld ["cmd/fail.sh"] ⟨"partial output\n", some "exit status 1", false⟩)
        "fail.sh now").events ∧
    (executeCommand
        (sampleWorld ["cmd/fail.sh"] ⟨"partial output\n", some "exit status 1", false⟩)
        "fail.sh now").reply.text = "执行错误: " ++ "exit status 1" ++ "\n" :=
  ⟨by decide,
    (execution_error_reply
      (sampleWorld ["cmd/fail.sh"] ⟨"partial output\n", some "exit status 1", false⟩)
      "fail.sh now" "cmd/fail.sh" ["now"] "exit status 1"
      (by decide) (by decide) (by decide)).2.1⟩

/-- C7: for a command that reaches the spawn step and whose context deadline
is exceeded, the reply is exactly "命令执行超时（超过 30s）", whatever output was
captured and whatever error the child returned. -/
theorem timeout_reply (w : World) (command name : String) (args : List String)
    (hspawn : Event.spawn name args ∈ (executeCommand w command).events)
    (hdl : (w.run name args).deadlineExceeded = true) :
    (executeCommand w command).reply = .executionTimeout ∧
    (executeCommand w command).reply.text = "命令执行超时（超过 30s）" := by
  obtain ⟨_, _, _, _, _, _, _, _, _, _, _, hrun⟩ := spawn_mem_events w command name args hspawn
  have hreply : (executeCommand w command).reply = .executionTimeout := by
    rw [hrun]
    simp [replyOfRun, hdl]
  exact ⟨hreply, by rw [hreply]; decide⟩

theorem timeout_reply_witness :
    Event.spawn "cmd/sleep.sh" ["60"] ∈
      (executeCommand
        (sampleWorld ["cmd/sleep.sh"] ⟨"zzz\n", some "signal: killed", true⟩)
        "sleep.sh 60").events ∧
    (executeCommand
        (sampleWorld ["cmd/sleep.sh"] ⟨"zzz\n", some "signal: killed", true⟩)
        "sleep.sh 60").reply.text = "命令执行超时（超过 30s）" :=
  ⟨by decide,
    (timeout_reply
      (sampleWorld ["cmd/sleep.sh"] ⟨"zzz\n", some "signal: killed", true⟩)
      "sleep.sh 60" "cmd/sleep.sh" ["60"] (by decide) (by decide)).2⟩

/-- C8: when a command passes argument validation, the extension gate, the
existence test, both path resolutions and the containment test, the requests
made are one stat, two getwd and then exactly one spawn, of the candidate path
with the tokens after the first as its arguments, in order and unchanged; and
when the child ends without error within the deadline the reply is the
captured output itself. -/
theorem spawn_once_output_verbatim (w : World) (command prog : String)
    (args : List String) (wd₁ wd₂ : String)
    (hf : Fields command = prog :: args)
    (hv : validateArgs args = none)
    (he : Ext (Join [cmdDir, prog]) ∈ [".exe", ".bat", ".sh", ""])
    (hs : w.stat (Join [cmdDir, prog]) ≠ .notExist)
    (h₁ : w.getwdPath = .ok wd₁)
    (h₂ : w.getwdDir = .ok wd₂)
    (hp : HasPrefix (Join [wd₁, Join [cmdDir, prog]]) (Join [wd₂, cmdDir]) = true) :
    (executeCommand w command).events =
      [.stat (Join [cmdDir, prog]), .getwd, .getwd, .spawn (Join [cmdDir, prog]) args] ∧
    (executeCommand w command).events.count (.spawn (Join [cmdDir, prog]) args) = 1 ∧
    (∀ name as, Event.spawn name as ∈ (executeCommand w command).events →
      name = Join [cmdDir, prog] ∧ as = args) ∧
    (∀ out, w.run (Join [cmdDir, prog]) args = ⟨out, none, false⟩ →
      (executeCommand w command).reply = .output out ∧
      (executeCommand w command).reply.text = out) := by
  have hrun := executeCommand_of_checks w command prog args wd₁ wd₂ hf hv
    ((allowedExtensions_iff _).2 he) hs h₁ h₂ hp
  rw [hrun]
  refine ⟨rfl, ?_, ?_, ?_⟩
  · simp [List.count_cons]
  · intro name as hmem
    simpa using hmem
  · intro out hout
    simp [hout, replyOfRun, Reply.text]

theorem spawn_once_output_verbatim_witness :
    (executeCommand (sampleWorld ["cmd/echoer.sh"] ⟨"a b\n", none, false⟩)
        "echoer.sh a b").events =
      [.stat "cmd/echoer.sh", .getwd, .getwd, .spawn "cmd/echoer.sh" ["a", "b"]] ∧
    (executeCommand (sampleWorld ["cmd/echoer.sh"] ⟨"a b\n", none, false⟩)
        "echoer.sh a b").reply.text = "a b\n" :=
  have h := spawn_once_output_verbatim
    (sampleWorld ["cmd/echoer.sh"] ⟨"a b\n", none, false⟩) "echoer.sh a b" "echoer.sh"
    ["a", "b"] "/srv" "/srv" (by decide) (by decide) (by decide) (by decide) rfl rfl
    (by decide)
  ⟨h.1, (h.2.2.2 "a b\n" rfl).2⟩

/-- C9: the length rule counts bytes, not characters. A token of 34
characters, each of three bytes, has `len` 102 and is rejected as too long,
with an error text that speaks of at most 100 characters. -/
theorem short_multibyte_token_rejected :
    wideToken.length = 34 ∧
    len wideToken = 102 ∧
    validateArgs [wideToken] = some (.argumentTooLong wideToken) ∧
    (ArgError.argumentTooLong wideToken).message
      = "参数长度超过限制 (最大 100 字符): " ++ wideToken := by
  decide

/-- C10, as stated, fails: for the list of `;` followed by a token of 101
bytes, which breaks the character rule first and the length rule second,
`validateArgs` reports IllegalCharacter for `;`, not ArgumentTooLong. -/
theorem illegal_character_before_too_long :
    len longToken > maxArgLength ∧
    ContainsAny ";" "<>|&;$" = true ∧
    validateArgs [";", longToken] = some (.illegalCharacter ";") := by
  decide

/-- C10, amended: the count rule comes first; after it the tokens are taken
in list order and the first token that breaks a rule decides the error:
ArgumentTooLong when that token is over 100 bytes, IllegalCharacter when it is
not but contains one of `< > | & ; $`. So TooManyArguments is reported exactly
when there are more than 10 tokens, ArgumentTooLong for `a` exactly when there
are at most 10 tokens, `a` is over-long and every token before `a` breaks no
rule, and IllegalCharacter for `a` exactly when there are at most 10 tokens,
`a` is not over-long, contains an illegal character and every token before
`a` breaks no rule. -/
theorem validateArgs_precedence (args : List String) :
    (validateArgs args = some .tooManyArguments ↔ args.length > maxArgsCount) ∧
    (∀ a, validateArgs args = some (.argumentTooLong a) ↔
      args.length ≤ maxArgsCount ∧ ∃ pre post, args = pre ++ a :: post ∧
        (∀ b ∈ pre, len b ≤ maxArgLength ∧ ContainsAny b "<>|&;$" = false) ∧
        len a > maxArgLength) ∧
    (∀ a, validateArgs args = some (.illegalCharacter a) ↔
      args.length ≤ maxArgsCount ∧ ∃ pre post, args = pre ++ a :: post ∧
        (∀ b ∈ pre, len b ≤ maxArgLength ∧ ContainsAny b "<>|&;$" = false) ∧
        len a ≤ maxArgLength ∧ ContainsAny a "<>|&;$" = true) := by
  by_cases hc : args.length > maxArgsCount
  · have hle : ¬ args.length ≤ maxArgsCount := Nat.not_le.2 hc
    simp [validateArgs, hc, hle]
  · have hle : args.length ≤ maxArgsCount := Nat.not_lt.1 hc
    simp only [validateArgs, hc, if_false, hle, true_and, iff_false]
    refine ⟨?_, ?_, ?_⟩
    · intro h
      obtain ⟨pre, a, post, _, _, hcase⟩ := (validateLoop_eq_some_iff _ _).1 h
      rcases hcase with ⟨_, h⟩ | ⟨_, _, h⟩ <;> cases h
    · intro a
      rw [validateLoop_eq_some_iff]
      constructor
      · rintro ⟨pre, x, post, hsplit, hpre, hcase⟩
        rcases hcase with ⟨hgt, h⟩ | ⟨_, _, h⟩
        · cases h
          exact ⟨pre, post, hsplit, hpre, hgt⟩
        · cases h
      · rintro ⟨pre, post, hsplit, hpre, hgt⟩
        exact ⟨pre, a, post, hsplit, hpre, Or.inl ⟨hgt, rfl⟩⟩
    · intro a
      rw [validateLoop_eq_some_iff]
      constructor
      · rintro ⟨pre, x, post, hsplit, hpre, hcase⟩
        rcases hcase with ⟨_, h⟩ | ⟨hle', hbad, h⟩
        · cases h
        · cases h
          exact ⟨pre, post, hsplit, hpre, hle', hbad⟩
      · rintro ⟨pre, post, hsplit, hpre, hle', hbad⟩
        exact ⟨pre, a, post, hsplit, hpre, Or.inr ⟨hle', hbad, rfl⟩⟩

theorem Clean_abs (path : String) (h : path.data.head? = some '/') :
    IsAbs (Clean path) = true := by
  have hne : path ≠ "" := by
    intro h0
    rw [h0] at h
    simp at h
  simp [Clean, hne, h, IsAbs, HasPrefix, List.isPrefixOf]

theorem Join_abs (wd path : String) (h : IsAbs wd = true) :
    IsAbs (Join [wd, path]) = true := by
  have hd : ∃ t, wd.data = '/' :: t := by
    cases hw : wd.data with
    | nil => simp [IsAbs, HasPrefix, hw, List.isPrefixOf] at h
    | cons c t =>
      simp [IsAbs, HasPrefix, hw, List.isPrefixOf] at h
      exact ⟨t, by rw [h]⟩
  obtain ⟨t, ht⟩ := hd
  have hne : wd ≠ "" := by
    intro h0
    rw [h0] at ht
    simp at ht
  have hJ : Join [wd, path] = Clean (wd ++ "/" ++ path) := by
    simp [Join, List.dropWhile, hne, String.intercalate, String.intercalate.go]
  rw [hJ]
  apply Clean_abs
  simp [ht]

/-- C11, as stated, fails: for `a.sh` in working directory `/srv` the absolute
path that passes the containment test is `/srv/cmd/a.sh`, but the string handed
to the spawner is the relative candidate path `cmd/a.sh`. -/
theorem spawn_gets_relative_path :
    (Abs (sampleWorld ["cmd/a.sh"] ⟨"ok\n", none, false⟩).getwdPath
        (Join [cmdDir, "a.sh"])).1 = .ok "/srv/cmd/a.sh" ∧
    (executeCommand (sampleWorld ["cmd/a.sh"] ⟨"ok\n", none, false⟩) "a.sh").events
      = [.stat "cmd/a.sh", .getwd, .getwd, .spawn "cmd/a.sh" []] ∧
    Event.spawn "/srv/cmd/a.sh" [] ∉
      (executeCommand (sampleWorld ["cmd/a.sh"] ⟨"ok\n", none, false⟩) "a.sh").events ∧
    IsAbs "cmd/a.sh" = false := by
  decide

/-- C11, amended: for a command that reaches the spawn step, the path handed
to the spawner is the candidate path `filepath.Join(cmdDir, program name)`,
which is never an absolute path; the string that passed the containment test
is its absolute form `filepath.Join(working directory, candidate path)`, and
with an absolute working directory the two strings differ. -/
theorem spawn_path_is_candidate (w : World) (command name : String) (args : List String)
    (hspawn : Event.spawn name args ∈ (executeCommand w command).events) :
    ∃ prog wd₁ wd₂, Fields command = prog :: args ∧
      name = Join [cmdDir, prog] ∧
      IsAbs name = false ∧
      Abs w.getwdPath name = (.ok (Join [wd₁, name]), [Event.getwd]) ∧
      Abs w.getwdDir cmdDir = (.ok (Join [wd₂, cmdDir]), [Event.getwd]) ∧
      HasPrefix (Join [wd₁, name]) (Join [wd₂, cmdDir]) = true ∧
      (IsAbs wd₁ = true → name ≠ Join [wd₁, name]) := by
  obtain ⟨prog, wd₁, wd₂, hf, hname, _, _, _, h₁, h₂, hp, _⟩ :=
    spawn_mem_events w command name args hspawn
  have hrel : IsAbs name = false := by rw [hname]; exact Join_cmdDir_not_abs prog
  refine ⟨prog, wd₁, wd₂, hf, hname, hrel, ?_, ?_, hp, ?_⟩
  · rw [hname, Abs_cmdPath, h₁]
  · rw [Abs_cmdDir, h₂]
  · intro hwd heq
    have habs := Join_abs wd₁ name hwd
    rw [← heq, hrel] at habs
    exact absurd habs (by decide)

theorem spawn_path_is_candidate_witness :
    Event.spawn "cmd/a.sh" ["-v"] ∈
      (executeCommand (sampleWorld ["cmd/a.sh"] ⟨"ok\n", none, false⟩) "a.sh -v").events ∧
    ∃ prog wd₁ wd₂, Fields "a.sh -v" = prog :: ["-v"] ∧
      "cmd/a.sh" = Join [cmdDir, prog] ∧
      IsAbs "cmd/a.sh" = false ∧
      Abs (sampleWorld ["cmd/a.sh"] ⟨"ok\n", none, false⟩).getwdPath "cmd/a.sh"
        = (.ok (Join [wd₁, "cmd/a.sh"]), [Event.getwd]) ∧
      Abs (sampleWorld ["cmd/a.sh"] ⟨"ok\n", none, false⟩).getwdDir cmdDir
        = (.ok (Join [wd₂, cmdDir]), [Event.getwd]) ∧
      HasPrefix (Join [wd₁, "cmd/a.sh"]) (Join [wd₂, cmdDir]) = true ∧
      (IsAbs wd₁ = true → "cmd/a.sh" ≠ Join [wd₁, "cmd/a.sh"]) :=
  ⟨by decide,
    spawn_path_is_candidate (sampleWorld ["cmd/a.sh"] ⟨"ok\n", none, false⟩) "a.sh -v"
      "cmd/a.sh" ["-v"] (by decide)⟩

theorem fieldsAux_tokens (l cur : List Char) (hcur : ∀ c ∈ cur, isSpace c = false) :
    ∀ t ∈ fieldsAux l cur, t ≠ "" ∧ ∀ c ∈ t.data, isSpace c = false := by
  induction l generalizing cur with
  | nil =>
    intro t ht
    by_cases h : cur = []
    · simp [fieldsAux, h] at ht
    · simp [fieldsAux, h] at ht
      subst ht
      exact ⟨fun h0 => h (congrArg String.data h0), hcur⟩
  | cons c cs ih =>
    intro t ht
    by_cases hc : isSpace c = true
    · by_cases h : cur = []
      · simp [fieldsAux, hc, h] at ht
        exact ih [] (by simp) t ht
      · simp [fieldsAux, hc, h] at ht
        rcases ht with rfl | ht
        · exact ⟨fun h0 => h (congrArg String.data h0), hcur⟩
        · exact ih [] (by simp) t ht
    · have hc' : isSpace c = false := by simpa using hc
      simp [fieldsAux, hc'] at ht
      refine ih (cur ++ [c]) ?_ t ht
      intro x hx
      rcases List.mem_append.1 hx with h | h
      · exact hcur x h
      · simp at h; subst h; exact hc'

theorem fieldsAux_flatMap (l cur : List Char) :
    (fieldsAux l cur).flatMap String.data = cur ++ l.filter (fun c => !isSpace c) := by
  induction l generalizing cur with
  | nil =>
    by_cases h : cur = [] <;> simp [fieldsAux, h]
  | cons c cs ih =>
    by_cases hc : isSpace c = true
    · by_cases h : cur = []
      · simp [fieldsAux, hc, h, ih]
      · simp [fieldsAux, hc, h, ih]
    · have hc' : isSpace c = false := by simpa using hc
      simp [fieldsAux, hc', ih]

theorem fieldsAux_append_space (l₁ l₂ cur : List Char) (c : Char) (hc : isSpace c = true) :
    fieldsAux (l₁ ++ c :: l₂) cur = fieldsAux l₁ cur ++ fieldsAux l₂ [] := by
  induction l₁ generalizing cur with
  | nil =>
    by_cases h : cur = [] <;> simp [fieldsAux, hc, h]
  | cons x xs ih =>
    by_cases hx : isSpace x = true
    · by_cases h : cur = [] <;> simp [fieldsAux, hx, h, ih]
    · have hx' : isSpace x = false := by simpa using hx
      simp [fieldsAux, hx', ih]

/-- C12: the tokens of `strings.Fields` are non-empty and free of white space;
joined in order they are the command text without its white-space characters;
the tokens on the two sides of a white-space character are never merged (the
fields of `s`, a white-space character, `t` are the fields of `s` followed by
the fields of `t`); and the empty text has no token. -/
theorem fields_tokenization (command : String) :
    (∀ t ∈ Fields command, t ≠ "" ∧ ∀ c ∈ t.data, isSpace c = false) ∧
    (Fields command).flatMap String.data = command.data.filter (fun c => !isSpace c) ∧
    (∀ (s t : String) (c : Char), isSpace c = true →
      command = s ++ String.singleton c ++ t → Fields command = Fields s ++ Fields t) ∧
    (command = "" → Fields command = []) := by
  refine ⟨fieldsAux_tokens _ [] (by simp), ?_, ?_, ?_⟩
  · simpa using fieldsAux_flatMap command.data []
  · intro s t c hc hcmd
    subst hcmd
    have := fieldsAux_append_space s.data t.data [] c hc
    simpa [Fields, String.singleton, List.append_assoc] using this
  · intro h
    subst h
    rfl

/-- C13: `executeCommand` always returns a reply. Evaluated with Go's checked
index and slice expressions, the call never panics and gives the outcome of
`executeCommand`: `parts[0]` and `parts[1:]`, which would panic on an empty
token list, are evaluated only on a non-empty one, where they give the first
token and the remaining tokens; and the lookup of an extension that is not a
key of `allowedExtensions` gives `false`. -/
theorem executeCommand_never_panics (w : World) (command : String) :
    executeCommandChecked w command = .ok (executeCommand w command) ∧
    (∀ prog args, Fields command = prog :: args →
      indexAt (Fields command) 0 = .ok prog ∧ sliceFrom (Fields command) 1 = .ok args) ∧
    (indexAt [] 0 = .error .indexOutOfRange ∧
      sliceFrom [] 1 = .error .sliceBoundsOutOfRange) ∧
    (∀ ext, ext ∉ [".exe", ".bat", ".sh", ""] → allowedExtensions ext = false) := by
  refine ⟨?_, ?_, ⟨rfl, rfl⟩, ?_⟩
  · cases hF : Fields command with
    | nil => simp [executeCommandChecked, executeCommand, hF]
    | cons prog args =>
      simp only [executeCommandChecked, executeCommand, hF, sliceFrom, indexAt]
      simp only [List.length_cons, Nat.add_one_ne_zero, if_false, Nat.le_add_left, if_true,
        List.drop_succ_cons, List.drop_zero, List.getElem?_cons_zero]
      cases validateArgs args with
      | some err => rfl
      | none =>
        simp only
        split
        · rfl
        · split
          · rfl
          · split
            · rfl
            · split
              · rfl
              · split <;> rfl
  · intro prog args hF
    rw [hF]
    simp [indexAt, sliceFrom]
  · intro ext hext
    cases h : allowedExtensions ext with
    | false => rfl
    | true => exact absurd ((allowedExtensions_iff ext).1 h) hext

/-- C14: when `executeCommand` reaches the spawn step, the argument list has
passed `validateArgs`, the extension of the candidate path is one of `.exe`,
`.bat`, `.sh` or empty, `os.Stat` did not report the path as missing, and the
absolute form of the candidate path has the absolute form of the command root
as a string prefix; so no spawn request occurs in a run where one of these
checks fails. -/
theorem spawn_implies_checks (w : World) (command name : String) (args : List String)
    (hspawn : Event.spawn name args ∈ (executeCommand w command).events) :
    validateArgs args = none ∧
    Ext name ∈ [".exe", ".bat", ".sh", ""] ∧
    w.stat name ≠ .notExist ∧
    ∃ absPath absCmdDir,
      (Abs w.getwdPath name).1 = .ok absPath ∧
      (Abs w.getwdDir cmdDir).1 = .ok absCmdDir ∧
      absCmdDir.data <+: absPath.data := by
  obtain ⟨prog, wd₁, wd₂, _, hname, hv, he, hs, h₁, h₂, hp, _⟩ :=
    spawn_mem_events w command name args hspawn
  refine ⟨hv, (allowedExtensions_iff _).1 he, hs, Join [wd₁, name], Join [wd₂, cmdDir], ?_, ?_, ?_⟩
  · rw [hname, Abs_cmdPath, h₁]
  · rw [Abs_cmdDir, h₂]
  · exact List.isPrefixOf_iff_prefix.1 hp

theorem spawn_implies_checks_witness :
    Event.spawn "cmd/a.sh" ["-v"] ∈
      (executeCommand (sampleWorld ["cmd/a.sh"] ⟨"ok\n", none, false⟩) "a.sh -v").events ∧
    validateArgs ["-v"] = none ∧
    Ext "cmd/a.sh" ∈ [".exe", ".bat", ".sh", ""] ∧
    (sampleWorld ["cmd/a.sh"] ⟨"ok\n", none, false⟩).stat "cmd/a.sh" ≠ .notExist ∧
    ∃ absPath absCmdDir,
      (Abs (sampleWorld ["cmd/a.sh"] ⟨"ok\n", none, false⟩).getwdPath "cmd/a.sh").1
        = .ok absPath ∧
      (Abs (sampleWorld ["cmd/a.sh"] ⟨"ok\n", none, false⟩).getwdDir cmdDir).1
        = .ok absCmdDir ∧
      absCmdDir.data <+: absPath.data :=
  ⟨by decide,
    spawn_implies_checks (sampleWorld ["cmd/a.sh"] ⟨"ok\n", none, false⟩) "a.sh -v"
      "cmd/a.sh" ["-v"] (by decide)⟩

/-- When the arguments pass validation, the candidate path has an allowed
extension and `os.Stat` answers with an error for which `os.IsNotExist` holds,
the reply is "命令不存在: " followed by the program-name token as typed (not
the joined path), and the only request made is that one stat: no
working-directory lookup, no containment test, no spawn. -/
theorem command_not_found_reply (w : World) (command prog : String) (args : List String)
    (hf : Fields command = prog :: args)
    (hv : validateArgs args = none)
    (he : Ext (Join [cmdDir, prog]) ∈ [".exe", ".bat", ".sh", ""])
    (hs : w.stat (Join [cmdDir, prog]) = .notExist) :
    executeCommand w command = ⟨.commandNotFound prog, [.stat (Join [cmdDir, prog])]⟩ ∧
    (executeCommand w command).reply.text = "命令不存在: " ++ prog := by
  have hrun : executeCommand w command
      = ⟨.commandNotFound prog, [.stat (Join [cmdDir, prog])]⟩ := by
    simp [executeCommand, hf, hv, (allowedExtensions_iff _).2 he, hs]
  exact ⟨hrun, by rw [hrun]; rfl⟩

theorem command_not_found_reply_witness :
    (Fields "../nope.sh now" = "../nope.sh" :: ["now"] ∧
      Join [cmdDir, "../nope.sh"] = "nope.sh" ∧
      isWithin "/srv/cmd" "/srv/nope.sh" = false) ∧
    executeCommand (sampleWorld ["cmd/a.sh"] ⟨"ok\n", none, false⟩) "../nope.sh now"
      = ⟨.commandNotFound "../nope.sh", [.stat (Join [cmdDir, "../nope.sh"])]⟩ ∧
    (executeCommand (sampleWorld ["cmd/a.sh"] ⟨"ok\n", none, false⟩)
      "../nope.sh now").reply.text = "命令不存在: " ++ "../nope.sh" :=
  ⟨by decide,
    command_not_found_reply (sampleWorld ["cmd/a.sh"] ⟨"ok\n", none, false⟩)
      "../nope.sh now" "../nope.sh" ["now"] (by decide) (by decide) (by decide) (by decide)⟩


/-- C15: a path at which nothing exists is not always reported as
CommandNotFound. With `cmd/a.sh` a regular file, nothing exists at the
candidate path `cmd/a.sh/b.sh` of the command `a.sh/b.sh`; its arguments are
valid and its extension allowed; `os.Stat` fails with an error other than
not-exist, the test of line 77 lets it through, both path resolutions and the
containment test follow, the path is handed to the spawner, and the reply is
the ExecutionError reply instead of "命令不存在: a.sh/b.sh". -/
theorem missing_entry_reaches_spawn :
    Fields "a.sh/b.sh" = ["a.sh/b.sh"] ∧
    validateArgs [] = none ∧
    Join [cmdDir, "a.sh/b.sh"] = "cmd/a.sh/b.sh" ∧
    Ext "cmd/a.sh/b.sh" ∈ [".exe", ".bat", ".sh", ""] ∧
    notDirWorld.stat "cmd/a.sh" = .found ∧
    notDirWorld.stat "cmd/a.sh/b.sh" = .otherError ∧
    executeCommand notDirWorld "a.sh/b.sh"
      = ⟨.executionError "fork/exec cmd/a.sh/b.sh: not a directory",
          [.stat "cmd/a.sh/b.sh", .getwd, .getwd, .spawn "cmd/a.sh/b.sh" []]⟩ ∧
    (executeCommand notDirWorld "a.sh/b.sh").reply ≠ .commandNotFound "a.sh/b.sh" ∧
    (executeCommand notDirWorld "a.sh/b.sh").reply.text
      = "执行错误: fork/exec cmd/a.sh/b.sh: not a directory\n" := by
  decide

theorem validateLoop_eq_none_iff (args : List String) :
    validateLoop args = none ↔
      ∀ a ∈ args, len a ≤ maxArgLength ∧ ContainsAny a "<>|&;$" = false := by
  induction args with
  | nil => simp [validateLoop]
  | cons x xs ih =>
    by_cases hlen : len x > maxArgLength
    · have : ¬ len x ≤ maxArgLength := Nat.not_le.2 hlen
      simp [validateLoop, hlen, this]
    · by_cases hbad : ContainsAny x "<>|&;$" = true
      · simp [validateLoop, hlen, hbad]
      · have hok : ContainsAny x "<>|&;$" = false := by simpa using hbad
        simp [validateLoop, hlen, hok, ih, Nat.not_lt.1 hlen]

theorem validateArgs_eq_none_iff (args : List String) :
    validateArgs args = none ↔
      args.length ≤ maxArgsCount ∧
        ∀ a ∈ args, len a ≤ maxArgLength ∧ ContainsAny a "<>|&;$" = false := by
  by_cases hc : args.length > maxArgsCount
  · have : ¬ args.length ≤ maxArgsCount := Nat.not_le.2 hc
    simp [validateArgs, hc, this]
  · simp [validateArgs, hc, Nat.not_lt.1 hc, validateLoop_eq_none_iff]

/-- With at least one token, the reply is an argument-validation reply exactly
when `validateArgs` returns that error for the tokens after the first. -/
theorem reply_argsInvalid_iff (w : World) (command prog : String) (args : List String)
    (hf : Fields command = prog :: args) (e : ArgError) :
    (executeCommand w command).reply = .argsInvalid e ↔ validateArgs args = some e := by
  cases hV : validateArgs args with
  | some err => simp [executeCommand, hf, hV]
  | none =>
    simp only [reduceCtorEq, iff_false]
    cases hE : allowedExtensions (Ext (Join [cmdDir, prog])) with
    | false => simp [executeCommand, hf, hV, hE]
    | true =>
      by_cases hS : w.stat (Join [cmdDir, prog]) = .notExist
      · simp [executeCommand, hf, hV, hE, hS]
      · cases h₁ : w.getwdPath with
        | error e => simp [executeCommand, hf, hV, hE, hS, Abs_cmdPath, h₁]
        | ok wd₁ =>
          cases h₂ : w.getwdDir with
          | error e => simp [executeCommand, hf, hV, hE, hS, Abs_cmdPath, Abs_cmdDir, h₁, h₂]
          | ok wd₂ =>
            cases hP : HasPrefix (Join [wd₁, Join [cmdDir, prog]]) (Join [wd₂, cmdDir]) with
            | false =>
              simp [executeCommand, hf, hV, hE, hS, Abs_cmdPath, Abs_cmdDir, h₁, h₂, hP]
            | true =>
              rw [executeCommand_of_checks w command prog args wd₁ wd₂ hf hV hE hS h₁ h₂ hP]
              simp only [replyOfRun]
              split
              · simp
              · split <;> simp

/-- C16: ten arguments of exactly 100 characters each, none of them
blacklisted, do not pass validation when the characters take three bytes: the
length rule counts bytes (the defect recorded for C9), each argument has `len`
300, and the reply is the ArgumentTooLong validation reply. The same command
shape with one-byte characters passes validation, also under a program name
of 101 bytes that contains `;`: the program name is exempt, and the call goes
on to the existence test. -/
theorem hundred_character_arguments_rejected :
    (Fields wideCommand = "run.sh" :: List.replicate 10 wideFullToken ∧
      wideFullToken.length = 100 ∧
      len wideFullToken = 300 ∧
      ContainsAny wideFullToken "<>|&;$" = false ∧
      executeCommand (sampleWorld ["cmd/run.sh"] ⟨"", none, false⟩) wideCommand
        = ⟨.argsInvalid (.argumentTooLong wideFullToken), []⟩) ∧
    (Fields fullCommand = oddProgram :: List.replicate 10 fullToken ∧
      fullToken.length = 100 ∧
      len oddProgram = 101 ∧
      ContainsAny oddProgram "<>|&;$" = true ∧
      validateArgs (List.replicate 10 fullToken) = none ∧
      (executeCommand (sampleWorld [] ⟨"", none, false⟩) fullCommand).reply
        = .commandNotFound oddProgram) := by
  decide

/-- C17: when a list of at most 10 tokens is rejected, the list splits at the
first token `a` that breaks the length rule or the character rule, the error
is ArgumentTooLong for `a` when `a` is over-long (whether or not it also
contains an illegal character) and IllegalCharacter for `a` otherwise, and the
error stays the same when the tokens after `a` are replaced by any others. -/
theorem first_offender_decides (args : List String) (e : ArgError)
    (hcount : args.length ≤ maxArgsCount) (hrej : validateArgs args = some e) :
    ∃ pre a post, args = pre ++ a :: post ∧
      (∀ b ∈ pre, len b ≤ maxArgLength ∧ ContainsAny b "<>|&;$" = false) ∧
      (len a > maxArgLength ∨ ContainsAny a "<>|&;$" = true) ∧
      e = (if len a > maxArgLength then .argumentTooLong a else .illegalCharacter a) ∧
      ∀ post', (pre ++ a :: post').length ≤ maxArgsCount →
        validateArgs (pre ++ a :: post') = some e := by
  have hc : ¬ args.length > maxArgsCount := Nat.not_lt.2 hcount
  simp only [validateArgs, hc, if_false] at hrej
  obtain ⟨pre, a, post, hsplit, hpre, hcase⟩ := (validateLoop_eq_some_iff args e).1 hrej
  refine ⟨pre, a, post, hsplit, hpre, ?_, ?_, ?_⟩
  · rcases hcase with ⟨h, _⟩ | ⟨_, h, _⟩
    · exact Or.inl h
    · exact Or.inr h
  · rcases hcase with ⟨h, he⟩ | ⟨h, _, he⟩
    · simp [h, he]
    · simp [Nat.not_lt.2 h, he]
  · intro post' hlen
    have hc' : ¬ (pre ++ a :: post').length > maxArgsCount := Nat.not_lt.2 hlen
    simp only [validateArgs, hc', if_false]
    exact (validateLoop_eq_some_iff _ e).2 ⟨pre, a, post', rfl, hpre, hcase⟩

theorem first_offender_decides_witness :
    (["ok", longBadToken, ";"].length ≤ maxArgsCount ∧
      validateArgs ["ok", longBadToken, ";"] = some (.argumentTooLong longBadToken)) ∧
    ∃ pre a post, ["ok", longBadToken, ";"] = pre ++ a :: post ∧
      (∀ b ∈ pre, len b ≤ maxArgLength ∧ ContainsAny b "<>|&;$" = false) ∧
      (len a > maxArgLength ∨ ContainsAny a "<>|&;$" = true) ∧
      ArgError.argumentTooLong longBadToken
        = (if len a > maxArgLength then .argumentTooLong a else .illegalCharacter a) ∧
      ∀ post', (pre ++ a :: post').length ≤ maxArgsCount →
        validateArgs (pre ++ a :: post') = some (.argumentTooLong longBadToken) :=
  ⟨by decide,
    first_offender_decides ["ok", longBadToken, ";"] (.argumentTooLong longBadToken)
      (by decide) (by decide)⟩

/-- C18: a bare name reaches the spawn step. The program names `.` and `x/..`
join with `./cmd` to the candidate path `cmd`, which has no separator; with
the directory `cmd` present every check passes and the spawner is handed the
bare name `cmd`. -/
theorem bare_name_reaches_spawn :
    Join [cmdDir, "."] = "cmd" ∧
    Join [cmdDir, "x/.."] = "cmd" ∧
    '/' ∉ "cmd".data ∧
    (executeCommand (sampleWorld ["cmd"] ⟨"from PATH\n", none, false⟩) ".")
      = ⟨.output "from PATH\n", [.stat "cmd", .getwd, .getwd, .spawn "cmd" []]⟩ ∧
    (executeCommand (sampleWorld ["cmd"] ⟨"from PATH\n", none, false⟩) "x/.. -v")
      = ⟨.output "from PATH\n", [.stat "cmd", .getwd, .getwd, .spawn "cmd" ["-v"]]⟩ := by
  decide

end Innand
